import Mathlib

/-
Verification of the serverset membership reconciliation module
(`src/serverset.rs` of the `discotech` crate).

Shallow embedding conventions:
* The ZooKeeper client (external crate `discotech_zookeeper`) is modelled as a
  record of pure capability functions: `exists_node` (an `exists` call that
  succeeds, i.e. `Ok _ ↦ true`, any error `↦ false`, exactly as `znode_exists`
  collapses it), `get_children` (`Err ↦ none`), and `get_data` (`Err ↦ none`;
  the `Stat` half of the Rust pair is ignored since the source only reads
  `node_data.0`, the byte vector).
* The external decoding libraries (`String::from_utf8` of std and
  `json::decode` of rustc_serialize) are modelled as pure functions
  `from_utf8 : bytes → Option String` and `json_decode : String → Option
  ServersetMember`, per their documented contracts.
* Bytes are `List Nat`.
* The `RwLock<HashMap<String, ServersetMember>>` is modelled as an association
  list with the usual HashMap semantics (insert replaces the entry for an
  existing key, remove erases it); per-operation lock acquisition is erased,
  methods become explicit state passing `Members → Members`.
* The removal pass of `update_members` exists in two forms. In the source the
  loop head `for old_member_znode in self.members.read().unwrap().keys()`
  holds the read guard for the whole loop while `remove_member` calls
  `self.members.write()` on the same non-reentrant std `RwLock` from the same
  thread, so the first attempted removal blocks forever and the cycle never
  completes. `removeOldLocked`/`update_members_locked` model this faithfully
  (`none` = the cycle never completes). `removeOld`/`update_members` are the
  lock-erased form in which removals complete; they describe exactly the
  cycles that attempt no removal (`update_members_locked_agrees`), which are
  the only cycles the program runs to completion.
* `panic!` in `Serverset::new` is modelled by returning `none`.
-/

namespace Discotech

/-- Rust struct `ServiceEndpoint { host: String, port: u16 }`; the port is a
machine integer but no operation in this module computes on it, so `Nat`
carries it. -/
structure ServiceEndpoint where
  host : String
  port : Nat
deriving DecidableEq, Repr

/-- Rust struct `ServersetMember { serviceEndpoint, additionalEndpoints, status }`;
the `HashMap<String, ServiceEndpoint>` of additional endpoints is carried as an
association list (no operation in this module ever reads it). -/
structure ServersetMember where
  serviceEndpoint : ServiceEndpoint
  additionalEndpoints : List (String × ServiceEndpoint)
  status : String
deriving DecidableEq, Repr

/-- The membership map `HashMap<String, ServersetMember>` as an association
list. -/
abbrev Members := List (String × ServersetMember)

/-- First-match lookup, the `HashMap::get` semantics on the association list. -/
def lookupMember (k : String) : Members → Option ServersetMember
  | [] => none
  | kv :: rest => if kv.1 = k then some kv.2 else lookupMember k rest

/-- `HashMap::insert`: replace the entry of an existing key, otherwise append. -/
def insertMember (k : String) (v : ServersetMember) : Members → Members
  | [] => [(k, v)]
  | kv :: rest => if kv.1 = k then (k, v) :: rest else kv :: insertMember k v rest

/-- `HashMap::remove`: erase every pair carrying key `k` (on a duplicate-free
association list this is exactly the removal of the key's entry). -/
def eraseKey (k : String) : Members → Members
  | [] => []
  | kv :: rest => if kv.1 = k then eraseKey k rest else kv :: eraseKey k rest

/-- The key list of the map (`HashMap::keys`). -/
def keysOf : Members → List String
  | [] => []
  | kv :: rest => kv.1 :: keysOf rest

/-- Membership test of the `HashSet<&String>` that `update_members` fills with
every listed child before the removal pass. -/
def containsChild (k : String) : List String → Bool
  | [] => false
  | c :: cs => if c = k then true else containsChild k cs

/-- Modelled from the spec: the `DiscoConfig` structure comes from the crate's
`config` module (`use config::*`), which is not among the provided sources;
its fields are the configuration items of spec §6 under the names the source
file reads (`zookeeper_host`, `zookeeper_port`, `zookeeper_timeout_secs`,
`serverset_znode`, `zookeeper_poll_ms`). -/
structure DiscoConfig where
  zookeeper_host : String
  zookeeper_port : Nat
  zookeeper_timeout_secs : Nat
  zookeeper_poll_ms : Nat
  serverset_znode : String

/-- The ZooKeeper client capability surface used by `serverset.rs`, one pure
function per call, errors collapsed to `none`/`false` as described in the
header comment. -/
structure ZkClient where
  exists_node : String → Bool
  get_children : String → Option (List String)
  get_data : String → Option (List Nat)

/-- The external decoding libraries used by `update_member`. -/
structure DecodeEnv where
  from_utf8 : List Nat → Option String
  json_decode : String → Option ServersetMember

/-- Rust `fn znode_exists`: `Ok(_) => true, _ => false`. -/
def znode_exists (zk : ZkClient) (znode : String) : Bool :=
  zk.exists_node znode

/-- Rust `fn remove_member`: `self.members.write().unwrap().remove(member_znode)`. -/
def remove_member (member_znode : String) (members : Members) : Members :=
  eraseKey member_znode members

/-- Rust `fn update_member`, state-passing form. The source checks that the
fully-qualified znode exists, fetches its data, parses UTF-8, decodes JSON, and
inserts the decoded member under the child identifier only when its `status`
matches `"ALIVE"`; every failure returns with the map untouched. -/
def update_member (cfg : DiscoConfig) (zk : ZkClient) (dec : DecodeEnv)
    (member_znode : String) (members : Members) : Members :=
  let full_member_znode := cfg.serverset_znode ++ "/" ++ member_znode
  if !(znode_exists zk full_member_znode) then members
  else
    let member_json_opt : Option String :=
      match zk.get_data full_member_znode with
      | none => none
      | some node_data =>
        match dec.from_utf8 node_data with
        | none => none
        | some node_string => some node_string
    let member_opt : Option ServersetMember :=
      match member_json_opt with
      | none => none
      | some member_json => dec.json_decode member_json
    match member_opt with
    | none => members
    | some member =>
      if member.status = "ALIVE" then insertMember member_znode member members
      else members

/-- The per-child loop of `update_members`: each listed child is pushed through
`update_member` in listing order (the `HashSet` of seen children is the whole
listing once the loop ends, so it is reconstructed by `containsChild` below). -/
def updateAll (cfg : DiscoConfig) (zk : ZkClient) (dec : DecodeEnv) :
    List String → Members → Members
  | [], members => members
  | c :: cs, members => updateAll cfg zk dec cs (update_member cfg zk dec c members)

/-- The removal loop of `update_members` with the locks erased: walk the key
list of the map and remove every key that the cycle's child listing does not
contain. This models the removals as completing; `removeOldLocked` below
models the source's actual lock behavior, under which any attempted removal
blocks forever. -/
def removeOld (children : List String) : List String → Members → Members
  | [], members => members
  | k :: ks, members =>
    removeOld children ks
      (if containsChild k children then members else remove_member k members)

/-- Rust `fn update_members`, state-passing form: bail out (map untouched) when
the serverset root znode is missing or the children listing fails; otherwise
update every listed child, then remove every key the listing dropped. -/
def update_members (cfg : DiscoConfig) (zk : ZkClient) (dec : DecodeEnv)
    (members : Members) : Members :=
  if !(znode_exists zk cfg.serverset_znode) then members
  else
    match zk.get_children cfg.serverset_znode with
    | none => members
    | some serverset_children =>
      let members1 := updateAll cfg zk dec serverset_children members
      removeOld serverset_children (keysOf members1) members1

/-- Lock-faithful model of the removal loop: the source iterates the key list
while the `members.read()` guard is held for the whole loop, and
`remove_member` calls `members.write()` on the same non-reentrant `RwLock`
from the same thread, which blocks forever while the read guard lives. The
first key the listing does not contain therefore hangs the cycle: `none`
models "the loop never completes"; when every key is contained, no write is
ever attempted and the loop finishes with the map unchanged. -/
def removeOldLocked (children : List String) :
    List String → Members → Option Members
  | [], members => some members
  | k :: ks, members =>
    if containsChild k children then removeOldLocked children ks members
    else none

/-- Lock-faithful `update_members`: identical to `update_members` except that
the removal pass deadlocks — the cycle never completes, `none` — as soon as
one removal is attempted. -/
def update_members_locked (cfg : DiscoConfig) (zk : ZkClient) (dec : DecodeEnv)
    (members : Members) : Option Members :=
  if !(znode_exists zk cfg.serverset_znode) then some members
  else
    match zk.get_children cfg.serverset_znode with
    | none => some members
    | some serverset_children =>
      let members1 := updateAll cfg zk dec serverset_children members
      removeOldLocked serverset_children (keysOf members1) members1

/-- Result of `ZooKeeper::connect`: either a client or the error `reason` that
the source interpolates into its panic message. -/
inductive ConnectResult where
  | ok : ZkClient → ConnectResult
  | err : String → ConnectResult

/-- Rust `struct Serverset` (the `RwLock` around `members` is erased). -/
structure Serverset where
  config : DiscoConfig
  zk_client : ZkClient
  members : Members

/-- Rust `fn Serverset::new`: on connection failure the source panics
(modelled as `none`); on success it returns the struct with an empty members
map. -/
def Serverset.new (discoConfig : DiscoConfig) (connect : ConnectResult) :
    Option Serverset :=
  match connect with
  | ConnectResult.err _ => none
  | ConnectResult.ok client =>
    some { config := discoConfig, zk_client := client, members := [] }

/-- Rust `fn watch`: the spawned closure body is one `update_members` call
followed by one `sleep_ms` and then returns — there is no loop. The store as
seen at successive poll instants is modelled by the sequence `zks`; the body
only ever reads instant `0`. -/
def watch_thread (cfg : DiscoConfig) (dec : DecodeEnv) (zks : Nat → ZkClient)
    (members : Members) : Members :=
  update_members cfg (zks 0) dec members

/-- The fetch-and-decode pipeline of `update_member` after the existence check:
`get_data`, then `String::from_utf8`, then `json::decode`; `none` on any
failure. -/
def member_decoded (cfg : DiscoConfig) (zk : ZkClient) (dec : DecodeEnv)
    (member_znode : String) : Option ServersetMember :=
  match zk.get_data (cfg.serverset_znode ++ "/" ++ member_znode) with
  | none => none
  | some node_data =>
    match dec.from_utf8 node_data with
    | none => none
    | some node_string => dec.json_decode node_string

/-- The record `update_member` would insert for a child: the decoded record
when the child's znode exists, the pipeline succeeds and the status is
`"ALIVE"`; `none` otherwise. -/
def alive_record (cfg : DiscoConfig) (zk : ZkClient) (dec : DecodeEnv)
    (member_znode : String) : Option ServersetMember :=
  if !(znode_exists zk (cfg.serverset_znode ++ "/" ++ member_znode)) then none
  else
    match member_decoded cfg zk dec member_znode with
    | none => none
    | some member =>
      if member.status = "ALIVE" then some member else none

/-- Spec §3 invariant on a published snapshot: every stored record carries the
`"ALIVE"` status tag. -/
def AliveInv (members : Members) : Prop :=
  ∀ k r, lookupMember k members = some r → r.status = "ALIVE"

theorem lookup_insert_self (k : String) (v : ServersetMember) (l : Members) :
    lookupMember k (insertMember k v l) = some v := by
  induction l with
  | nil => simp [insertMember, lookupMember]
  | cons kv rest ih =>
    by_cases h : kv.1 = k <;> simp [insertMember, lookupMember, h, ih]

theorem lookup_insert_ne {k k' : String} (h : k' ≠ k) (v : ServersetMember)
    (l : Members) : lookupMember k (insertMember k' v l) = lookupMember k l := by
  induction l with
  | nil => simp [insertMember, lookupMember, h]
  | cons kv rest ih =>
    by_cases hk : kv.1 = k'
    · simp [insertMember, lookupMember, hk, h]
    · simp [insertMember, lookupMember, hk, ih]

theorem insert_of_lookup_eq {k : String} {v : ServersetMember} {l : Members}
    (h : lookupMember k l = some v) : insertMember k v l = l := by
  induction l with
  | nil => simp [lookupMember] at h
  | cons kv rest ih =>
    by_cases hk : kv.1 = k
    · rw [insertMember, if_pos hk]
      rw [lookupMember, if_pos hk] at h
      have hv : kv.2 = v := Option.some.inj h
      rw [← hk, ← hv]
    · rw [insertMember, if_neg hk]
      rw [lookupMember, if_neg hk] at h
      rw [ih h]

theorem lookup_erase_self (k : String) (l : Members) :
    lookupMember k (eraseKey k l) = none := by
  induction l with
  | nil => simp [eraseKey, lookupMember]
  | cons kv rest ih =>
    by_cases h : kv.1 = k <;> simp [eraseKey, lookupMember, h, ih]

theorem lookup_erase_ne {k k' : String} (h : k' ≠ k) (l : Members) :
    lookupMember k (eraseKey k' l) = lookupMember k l := by
  induction l with
  | nil => simp [eraseKey, lookupMember]
  | cons kv rest ih =>
    by_cases hk : kv.1 = k'
    · have : ¬ kv.1 = k := by rw [hk]; exact h
      simp [eraseKey, lookupMember, hk, this, ih, h]
    · simp [eraseKey, lookupMember, hk, ih]

theorem mem_erase {kv : String × ServersetMember} {k : String} {l : Members}
    (h : kv ∈ eraseKey k l) : kv ∈ l ∧ kv.1 ≠ k := by
  induction l with
  | nil => simp [eraseKey] at h
  | cons kv' rest ih =>
    by_cases hk : kv'.1 = k
    · simp only [eraseKey, if_pos hk] at h
      exact ⟨List.mem_cons_of_mem _ (ih h).1, (ih h).2⟩
    · simp only [eraseKey, if_neg hk, List.mem_cons] at h
      rcases h with h | h
      · exact ⟨by simp [h], by rw [h]; exact hk⟩
      · exact ⟨List.mem_cons_of_mem _ (ih h).1, (ih h).2⟩

theorem lookup_some_mem_keys {k : String} {v : ServersetMember} {l : Members}
    (h : lookupMember k l = some v) : k ∈ keysOf l := by
  induction l with
  | nil => simp [lookupMember] at h
  | cons kv rest ih =>
    by_cases hk : kv.1 = k
    · simp [keysOf, hk]
    · simp only [lookupMember, if_neg hk] at h
      simp [keysOf, ih h]

theorem mem_keysOf {kv : String × ServersetMember} {l : Members} (h : kv ∈ l) :
    kv.1 ∈ keysOf l := by
  induction l with
  | nil => simp at h
  | cons kv' rest ih =>
    rcases List.mem_cons.mp h with h | h
    · simp [keysOf, h]
    · simp [keysOf, ih h]

/-- Characterization of one `update_member` step: it is exactly an insert of
the child's alive record when there is one, and a no-op otherwise. -/
theorem update_member_eq (cfg : DiscoConfig) (zk : ZkClient) (dec : DecodeEnv)
    (c : String) (m : Members) :
    update_member cfg zk dec c m =
      match alive_record cfg zk dec c with
      | some r => insertMember c r m
      | none => m := by
  unfold update_member alive_record member_decoded
  by_cases hex : znode_exists zk (cfg.serverset_znode ++ "/" ++ c)
  · simp only [hex, Bool.not_true, Bool.false_eq_true, if_false]
    rcases hd : zk.get_data (cfg.serverset_znode ++ "/" ++ c) with _ | node_data
    · simp [hd]
    · rcases hu : dec.from_utf8 node_data with _ | node_string
      · simp [hd, hu]
      · rcases hj : dec.json_decode node_string with _ | member
        · simp [hd, hu, hj]
        · by_cases hst : member.status = "ALIVE" <;> simp [hd, hu, hj, hst]
  · simp only [Bool.not_eq_true] at hex
    simp [hex]

theorem lookup_update_member_ne (cfg : DiscoConfig) (zk : ZkClient)
    (dec : DecodeEnv) {c k : String} (h : c ≠ k) (m : Members) :
    lookupMember k (update_member cfg zk dec c m) = lookupMember k m := by
  rw [update_member_eq]
  cases alive_record cfg zk dec c with
  | none => rfl
  | some r => exact lookup_insert_ne h r m

/-- Lookup after the per-child pass: a key among the listed children reads its
alive record when there is one and its prior entry otherwise; any other key is
untouched. -/
theorem lookup_updateAll (cfg : DiscoConfig) (zk : ZkClient) (dec : DecodeEnv)
    (cs : List String) (k : String) (m : Members) :
    lookupMember k (updateAll cfg zk dec cs m) =
      if containsChild k cs then
        match alive_record cfg zk dec k with
        | some r => some r
        | none => lookupMember k m
      else lookupMember k m := by
  induction cs generalizing m with
  | nil => simp [updateAll, containsChild]
  | cons c cs' ih =>
    simp only [updateAll, containsChild]
    by_cases hc : c = k
    · subst hc
      simp only [if_pos rfl, if_pos (by rfl : c = c)] at *
      rw [ih]
      by_cases hcs : containsChild c cs'
      · simp only [hcs, if_true]
        cases h : alive_record cfg zk dec c with
        | some r => rfl
        | none => rw [update_member_eq, h]
      · simp only [hcs, Bool.false_eq_true, if_false]
        rw [update_member_eq]
        cases h : alive_record cfg zk dec c with
        | some r => exact lookup_insert_self c r m
        | none => rfl
    · simp only [if_neg hc]
      rw [ih, lookup_update_member_ne cfg zk dec hc]

theorem lookup_removeOld_contained (children : List String) {k : String}
    (h : containsChild k children = true) (ks : List String) (m : Members) :
    lookupMember k (removeOld children ks m) = lookupMember k m := by
  induction ks generalizing m with
  | nil => simp [removeOld]
  | cons k' ks' ih =>
    simp only [removeOld]
    by_cases hk' : containsChild k' children
    · simp only [hk', if_true]
      exact ih m
    · simp only [hk', Bool.false_eq_true, if_false]
      have hne : k' ≠ k := by
        intro hkk
        rw [hkk, h] at hk'
        exact hk' rfl
      rw [ih, remove_member, lookup_erase_ne hne]

theorem lookup_removeOld_none (children ks : List String) {k : String}
    {m : Members} (h : lookupMember k m = none) :
    lookupMember k (removeOld children ks m) = none := by
  induction ks generalizing m with
  | nil => simpa [removeOld] using h
  | cons k' ks' ih =>
    simp only [removeOld]
    by_cases hk' : containsChild k' children
    · simp only [hk', if_true]
      exact ih h
    · simp only [hk', Bool.false_eq_true, if_false]
      refine ih ?_
      by_cases hne : k' = k
      · rw [remove_member, hne, lookup_erase_self]
      · rw [remove_member, lookup_erase_ne hne, h]

theorem lookup_removeOld_dropped (children : List String) {k : String}
    (h : containsChild k children = false) (ks : List String) (hk : k ∈ ks)
    (m : Members) : lookupMember k (removeOld children ks m) = none := by
  induction ks generalizing m with
  | nil => simp at hk
  | cons k' ks' ih =>
    simp only [removeOld]
    by_cases hkk : k' = k
    · subst hkk
      simp only [h, Bool.false_eq_true, if_false]
      exact lookup_removeOld_none children ks' (by rw [remove_member, lookup_erase_self])
    · rcases List.mem_cons.mp hk with hk1 | hk2
      · exact absurd hk1.symm hkk
      · by_cases hk' : containsChild k' children
        · simp only [hk', if_true]
          exact ih hk2 m
        · simp only [hk', Bool.false_eq_true, if_false]
          exact ih hk2 _

/-- Master characterization of one reconciliation cycle when the root exists
and the listing succeeds: a listed key ends at its alive record, falling back
to its prior entry; an unlisted key is gone. -/
theorem lookup_update_members (cfg : DiscoConfig) (zk : ZkClient)
    (dec : DecodeEnv) {children : List String}
    (hroot : znode_exists zk cfg.serverset_znode = true)
    (hch : zk.get_children cfg.serverset_znode = some children)
    (k : String) (m : Members) :
    lookupMember k (update_members cfg zk dec m) =
      if containsChild k children then
        match alive_record cfg zk dec k with
        | some r => some r
        | none => lookupMember k m
      else none := by
  unfold update_members
  simp only [hroot, Bool.not_true, Bool.false_eq_true, if_false, hch]
  by_cases hc : containsChild k children
  · simp only [hc, if_true]
    rw [lookup_removeOld_contained children hc, lookup_updateAll, if_pos hc]
  · simp only [hc, Bool.false_eq_true, if_false]
    cases hl : lookupMember k (updateAll cfg zk dec children m) with
    | none => exact lookup_removeOld_none children _ hl
    | some v =>
      exact lookup_removeOld_dropped children
        (by simpa using hc) _ (lookup_some_mem_keys hl) _

theorem containsChild_of_mem {c : String} {cs : List String} (h : c ∈ cs) :
    containsChild c cs = true := by
  induction cs with
  | nil => simp at h
  | cons c' cs' ih =>
    rcases List.mem_cons.mp h with h | h
    · simp [containsChild, h]
    · by_cases hc : c' = c <;> simp [containsChild, hc, ih h]

theorem exists_mem_of_mem_keysOf {k : String} {l : Members}
    (h : k ∈ keysOf l) : ∃ v, (k, v) ∈ l ∧ Prod.fst (k, v) = k := by
  induction l with
  | nil => simp [keysOf] at h
  | cons kv rest ih =>
    rcases List.mem_cons.mp (by simpa [keysOf] using h) with h1 | h2
    · exact ⟨kv.2, List.mem_cons.mpr (Or.inl (by rw [h1])), rfl⟩
    · rcases ih h2 with ⟨v, hv, _⟩
      exact ⟨v, List.mem_cons_of_mem _ hv, rfl⟩

theorem updateAll_fixed (cfg : DiscoConfig) (zk : ZkClient) (dec : DecodeEnv)
    {cs : List String} {m : Members}
    (h : ∀ c ∈ cs, update_member cfg zk dec c m = m) :
    updateAll cfg zk dec cs m = m := by
  induction cs with
  | nil => rfl
  | cons c cs' ih =>
    rw [updateAll, h c (List.mem_cons_self c cs')]
    exact ih (fun c' hc' => h c' (List.mem_cons_of_mem _ hc'))

theorem removeOld_fixed (children : List String) {ks : List String} {m : Members}
    (h : ∀ k ∈ ks, containsChild k children = true) :
    removeOld children ks m = m := by
  induction ks generalizing m with
  | nil => rfl
  | cons k ks' ih =>
    rw [removeOld, if_pos (h k (List.mem_cons_self k ks'))]
    exact ih (fun k' hk' => h k' (List.mem_cons_of_mem _ hk'))

theorem mem_removeOld {children ks : List String}
    {kv : String × ServersetMember} {m : Members}
    (h : kv ∈ removeOld children ks m) :
    kv ∈ m ∧ (containsChild kv.1 children = true ∨ kv.1 ∉ ks) := by
  induction ks generalizing m with
  | nil => exact ⟨h, Or.inr (by simp)⟩
  | cons k ks' ih =>
    rw [removeOld] at h
    by_cases hk : containsChild k children
    · rw [if_pos hk] at h
      rcases ih h with ⟨hm, hrest⟩
      refine ⟨hm, ?_⟩
      rcases hrest with h1 | h2
      · exact Or.inl h1
      · by_cases hkk : kv.1 = k
        · exact Or.inl (by rw [hkk]; exact hk)
        · exact Or.inr (by simp [hkk, h2])
    · rw [if_neg hk] at h
      rcases ih h with ⟨hm, hrest⟩
      rcases mem_erase hm with ⟨hm', hne⟩
      refine ⟨hm', ?_⟩
      rcases hrest with h1 | h2
      · exact Or.inl h1
      · exact Or.inr (by simp [hne, h2])

/-- Shared no-op lemma: root missing or listing failure leaves the map alone. -/
theorem update_members_fail_eq (cfg : DiscoConfig) (zk : ZkClient)
    (dec : DecodeEnv) (m : Members)
    (h : znode_exists zk cfg.serverset_znode = false ∨
         zk.get_children cfg.serverset_znode = none) :
    update_members cfg zk dec m = m := by
  unfold update_members
  rcases h with h | h
  · simp [h]
  · by_cases hr : znode_exists zk cfg.serverset_znode <;> simp [hr, h]

theorem alive_record_of_decoded_none {cfg : DiscoConfig} {zk : ZkClient}
    {dec : DecodeEnv} {c : String}
    (h : member_decoded cfg zk dec c = none) :
    alive_record cfg zk dec c = none := by
  unfold alive_record
  rw [h]
  by_cases hex : znode_exists zk (cfg.serverset_znode ++ "/" ++ c) <;> simp [hex]

theorem alive_record_status {cfg : DiscoConfig} {zk : ZkClient}
    {dec : DecodeEnv} {c : String} {r : ServersetMember}
    (h : alive_record cfg zk dec c = some r) : r.status = "ALIVE" := by
  unfold alive_record at h
  by_cases hex : znode_exists zk (cfg.serverset_znode ++ "/" ++ c)
  · rw [if_neg (by simp [hex])] at h
    rcases hm : member_decoded cfg zk dec c with _ | member
    · rw [hm] at h
      cases h
    · rw [hm] at h
      by_cases hst : member.status = "ALIVE"
      · simp only [hst, if_true] at h
        rw [← Option.some.inj h]
        exact hst
      · simp [hst] at h
  · rw [if_pos (by simp [Bool.not_eq_true] at hex; simp [hex])] at h
    cases h

/-- A removal loop that completes removed nothing: the map is returned as it
was and every one of the walked keys was contained in the listing. -/
theorem removeOldLocked_some {children ks : List String} {m res : Members}
    (h : removeOldLocked children ks m = some res) :
    res = m ∧ ∀ k ∈ ks, containsChild k children = true := by
  induction ks with
  | nil => exact ⟨(Option.some.inj h).symm, by simp⟩
  | cons k ks' ih =>
    rw [removeOldLocked] at h
    by_cases hk : containsChild k children
    · rw [if_pos hk] at h
      rcases ih h with ⟨hres, hall⟩
      refine ⟨hres, ?_⟩
      intro k' hk'
      rcases List.mem_cons.mp hk' with h1 | h2
      · rw [h1]
        exact hk
      · exact hall k' h2
    · rw [if_neg hk] at h
      cases h

/-- On a cycle that runs to completion the lock-faithful model and the
lock-erased model agree: a completing removal pass removed nothing. -/
theorem update_members_locked_agrees (cfg : DiscoConfig) (zk : ZkClient)
    (dec : DecodeEnv) {m res : Members}
    (h : update_members_locked cfg zk dec m = some res) :
    update_members cfg zk dec m = res := by
  unfold update_members_locked at h
  unfold update_members
  by_cases hroot : znode_exists zk cfg.serverset_znode
  · simp only [hroot, Bool.not_true, Bool.false_eq_true, if_false] at h ⊢
    rcases hch : zk.get_children cfg.serverset_znode with _ | children
    · simp only [hch] at h ⊢
      exact Option.some.inj h
    · simp only [hch] at h ⊢
      rcases removeOldLocked_some h with ⟨hres, hall⟩
      rw [removeOld_fixed children hall, hres]
  · have hz : znode_exists zk cfg.serverset_znode = false := by
      simpa using hroot
    simp only [hz, Bool.not_false, if_true] at h ⊢
    exact Option.some.inj h

/-- Test configuration: root membership path `/ss`. -/
def cfgT : DiscoConfig where
  zookeeper_host := "zk1"
  zookeeper_port := 2181
  zookeeper_timeout_secs := 10
  zookeeper_poll_ms := 1000
  serverset_znode := "/ss"

/-- An alive member record with endpoint `(h1, 1)`. -/
def memA : ServersetMember where
  serviceEndpoint := { host := "h1", port := 1 }
  additionalEndpoints := []
  status := "ALIVE"

/-- A dead member record with endpoint `(h2, 2)`. -/
def memB : ServersetMember where
  serviceEndpoint := { host := "h2", port := 2 }
  additionalEndpoints := []
  status := "DEAD"

/-- Decoder fixture: byte `0` decodes to the alive record `memA`, byte `1` to
the dead record `memB`, anything else is malformed. -/
def decT : DecodeEnv where
  from_utf8 := fun b =>
    if b = [0] then some "A" else if b = [1] then some "B" else none
  json_decode := fun s =>
    if s = "A" then some memA else if s = "B" then some memB else none

/-- Store fixture: children `a` (alive) and `b` (dead) under `/ss`. -/
def zkAB : ZkClient where
  exists_node := fun p => p == "/ss" || p == "/ss/a" || p == "/ss/b"
  get_children := fun p => if p = "/ss" then some ["a", "b"] else none
  get_data := fun p =>
    if p = "/ss/a" then some [0] else if p = "/ss/b" then some [1] else none

/-- Store fixture: unreachable store — nothing exists, every call fails. -/
def zkDown : ZkClient where
  exists_node := fun _ => false
  get_children := fun _ => none
  get_data := fun _ => none

/-- Store fixture: the root exists but the children listing fails. -/
def zkNoList : ZkClient where
  exists_node := fun p => p == "/ss"
  get_children := fun _ => none
  get_data := fun _ => none

/-- Store fixture: the root exists with an empty child listing. -/
def zkEmpty : ZkClient where
  exists_node := fun p => p == "/ss"
  get_children := fun p => if p = "/ss" then some [] else none
  get_data := fun _ => none

/-- Store fixture: child `a` is listed and its znode exists, but its data
fetch fails. -/
def zkStale : ZkClient where
  exists_node := fun p => p == "/ss" || p == "/ss/a"
  get_children := fun p => if p = "/ss" then some ["a"] else none
  get_data := fun _ => none

/-- Store fixture: child `a` is valid and alive, child `c` carries a malformed
payload (byte `2`, which the decoder rejects). -/
def zkC : ZkClient where
  exists_node := fun p => p == "/ss" || p == "/ss/a" || p == "/ss/c"
  get_children := fun p => if p = "/ss" then some ["a", "c"] else none
  get_data := fun p =>
    if p = "/ss/a" then some [0] else if p = "/ss/c" then some [2] else none

/-- Store-state sequence over poll instants: unreachable at instant `0`, then
children `a`/`b` appear from instant `1` on. -/
def zksT : Nat → ZkClient := fun n => if n = 0 then zkDown else zkAB

/-- C1: for every prior membership snapshot, if the root membership znode does
not exist or the children listing fails, the reconciliation cycle
(`update_members`) performs no insertions and no removals — the snapshot after
the cycle equals the snapshot before it. -/
theorem update_members_noop_on_root_or_listing_failure
    (cfg : DiscoConfig) (zk : ZkClient) (dec : DecodeEnv) (m : Members)
    (h : znode_exists zk cfg.serverset_znode = false ∨
         zk.get_children cfg.serverset_znode = none) :
    update_members cfg zk dec m = m :=
  update_members_fail_eq cfg zk dec m h

theorem update_members_noop_on_root_or_listing_failure_witness :
    (znode_exists zkDown cfgT.serverset_znode = false ∨
      zkDown.get_children cfgT.serverset_znode = none) ∧
    update_members cfgT zkDown decT [("a", memA)] = [("a", memA)] ∧
    update_members cfgT zkNoList decT [("a", memA)] = [("a", memA)] :=
  ⟨Or.inl rfl,
   update_members_noop_on_root_or_listing_failure cfgT zkDown decT
     [("a", memA)] (Or.inl rfl),
   update_members_noop_on_root_or_listing_failure cfgT zkNoList decT
     [("a", memA)] (Or.inr rfl)⟩

/-- C2: for a listed child whose node exists, whose data fetch succeeds and
whose payload decodes, a record with status `"ALIVE"` is upserted under the
child's identifier and any other status leaves the map untouched at that step;
starting from an empty snapshot with children `a` alive on `(h1,1)` and `b`
dead on `(h2,2)`, one cycle yields exactly `{a ↦ (h1,1)}` with `b` absent. -/
theorem update_member_alive_guard :
    (∀ (cfg : DiscoConfig) (zk : ZkClient) (dec : DecodeEnv) (c : String)
        (m : Members) (bytes : List Nat) (s : String) (member : ServersetMember),
      znode_exists zk (cfg.serverset_znode ++ "/" ++ c) = true →
      zk.get_data (cfg.serverset_znode ++ "/" ++ c) = some bytes →
      dec.from_utf8 bytes = some s →
      dec.json_decode s = some member →
      (member.status = "ALIVE" →
          update_member cfg zk dec c m = insertMember c member m) ∧
      (member.status ≠ "ALIVE" → update_member cfg zk dec c m = m)) ∧
    update_members cfgT zkAB decT [] = [("a", memA)] := by
  constructor
  · intro cfg zk dec c m bytes s member hex hd hu hj
    constructor
    · intro hst
      have ha : alive_record cfg zk dec c = some member := by
        unfold alive_record member_decoded
        simp [hex, hd, hu, hj, hst]
      rw [update_member_eq, ha]
    · intro hst
      have ha : alive_record cfg zk dec c = none := by
        unfold alive_record member_decoded
        simp [hex, hd, hu, hj, hst]
      rw [update_member_eq, ha]
  · decide

theorem update_member_alive_guard_witness :
    update_member cfgT zkAB decT "a" [] = insertMember "a" memA [] ∧
    update_member cfgT zkAB decT "b" [] = [] :=
  ⟨(update_member_alive_guard.1 cfgT zkAB decT "a" [] [0] "A" memA
      (by decide) (by decide) (by decide) (by decide)).1 (by decide),
   (update_member_alive_guard.1 cfgT zkAB decT "b" [] [1] "B" memB
      (by decide) (by decide) (by decide) (by decide)).2 (by decide)⟩

/-- C3 (code bug): with prior snapshot `{a ↦ memA}` and an empty child
listing, the claim — and spec step 4 — demand that `a` be gone when the cycle
completes. The program instead reaches `a` in the removal loop and blocks
forever on `members.write()` while the loop still holds the `members.read()`
guard, so `a` is never removed and the cycle never completes: the
lock-faithful cycle yields no result at all. -/
theorem unlisted_member_removal_deadlock :
    lookupMember "a" [("a", memA)] = some memA ∧
    znode_exists zkEmpty cfgT.serverset_znode = true ∧
    zkEmpty.get_children cfgT.serverset_znode = some [] ∧
    update_members_locked cfgT zkEmpty decT [("a", memA)] = none := by
  decide

/-- C4 counterexample: with prior snapshot `{a ↦ memA}`, child `a` listed,
its znode existing but its data fetch failing, `a` stays in the final key set
even though it is a listed child whose fetch failed — refuting the claimed
subset "listed children minus any child that failed fetch or decode". -/
theorem snapshot_subset_claim_counterexample :
    zkStale.get_children cfgT.serverset_znode = some ["a"] ∧
    znode_exists zkStale (cfgT.serverset_znode ++ "/" ++ "a") = true ∧
    zkStale.get_data (cfgT.serverset_znode ++ "/" ++ "a") = none ∧
    "a" ∈ keysOf (update_members cfgT zkStale decT [("a", memA)]) := by
  decide

/-- C4 amended: on every cycle whose children listing succeeds and which runs
to completion, each key of the resulting map is among the listed children and
carries either the child's freshly decoded alive record or — only when the
child has no alive record this cycle (its fetch or decode failed, its node
vanished, or its status was not `"ALIVE"`) — the entry it already had before
the cycle. A cycle that would have to drop a key never completes: its removal
pass self-deadlocks (see `removeOldLocked`). -/
theorem snapshot_keys_subset_locked (cfg : DiscoConfig) (zk : ZkClient)
    (dec : DecodeEnv) {children : List String} (m res : Members)
    (hroot : znode_exists zk cfg.serverset_znode = true)
    (hch : zk.get_children cfg.serverset_znode = some children)
    (hres : update_members_locked cfg zk dec m = some res) :
    ∀ k r, lookupMember k res = some r →
      containsChild k children = true ∧
      (alive_record cfg zk dec k = some r ∨
        (alive_record cfg zk dec k = none ∧ lookupMember k m = some r)) := by
  intro k r h
  unfold update_members_locked at hres
  simp only [hroot, Bool.not_true, Bool.false_eq_true, if_false, hch] at hres
  rcases removeOldLocked_some hres with ⟨hres1, hall⟩
  rw [hres1] at h
  have hc : containsChild k children = true := hall k (lookup_some_mem_keys h)
  refine ⟨hc, ?_⟩
  rw [lookup_updateAll] at h
  simp only [hc, if_true] at h
  rcases ha : alive_record cfg zk dec k with _ | r'
  · simp only [ha] at h
    exact Or.inr ⟨rfl, h⟩
  · simp only [ha] at h
    exact Or.inl h

theorem snapshot_keys_subset_locked_witness :
    containsChild "a" ["a"] = true ∧
    (alive_record cfgT zkStale decT "a" = some memA ∨
      (alive_record cfgT zkStale decT "a" = none ∧
        lookupMember "a" [("a", memA)] = some memA)) :=
  snapshot_keys_subset_locked cfgT zkStale decT [("a", memA)] [("a", memA)]
    (by decide) rfl (by decide) "a" memA (by decide)

/-- C5: running a reconciliation cycle twice against an unchanged backing
store produces the same membership snapshot as running it once. -/
theorem update_members_idempotent (cfg : DiscoConfig) (zk : ZkClient)
    (dec : DecodeEnv) (m : Members) :
    update_members cfg zk dec (update_members cfg zk dec m) =
      update_members cfg zk dec m := by
  by_cases hroot : znode_exists zk cfg.serverset_znode
  · rcases hch : zk.get_children cfg.serverset_znode with _ | children
    · rw [update_members_fail_eq cfg zk dec m (Or.inr hch)]
      exact update_members_fail_eq cfg zk dec m (Or.inr hch)
    · have hunfold : update_members cfg zk dec m =
          removeOld children (keysOf (updateAll cfg zk dec children m))
            (updateAll cfg zk dec children m) := by
        unfold update_members
        simp only [hroot, Bool.not_true, Bool.false_eq_true, if_false, hch]
      have hkeys : ∀ kv ∈ update_members cfg zk dec m,
          containsChild kv.1 children = true := by
        intro kv hkv
        rw [hunfold] at hkv
        rcases mem_removeOld hkv with ⟨hm, h1 | h2⟩
        · exact h1
        · exact absurd (mem_keysOf hm) h2
      have hfix : ∀ c ∈ children,
          update_member cfg zk dec c (update_members cfg zk dec m) =
            update_members cfg zk dec m := by
        intro c hc
        rw [update_member_eq]
        rcases ha : alive_record cfg zk dec c with _ | r
        · rfl
        · refine insert_of_lookup_eq ?_
          rw [lookup_update_members cfg zk dec hroot hch]
          simp only [containsChild_of_mem hc, if_true, ha]
      conv_lhs => rw [update_members]
      simp only [hroot, Bool.not_true, Bool.false_eq_true, if_false, hch]
      rw [updateAll_fixed cfg zk dec hfix]
      refine removeOld_fixed children ?_
      intro k hk
      rcases exists_mem_of_mem_keysOf hk with ⟨v, hv, _⟩
      exact hkeys (k, v) hv
  · have hz : znode_exists zk cfg.serverset_znode = false := by
      simpa using hroot
    rw [update_members_fail_eq cfg zk dec m (Or.inl hz)]
    exact update_members_fail_eq cfg zk dec m (Or.inl hz)

/-- C6: a fetch or decode failure of one child does not affect the processing
of any other child — every listed child with a valid alive record is still
applied in the same cycle — and the failing child itself stays absent when it
was not previously present. -/
theorem child_failure_isolation (cfg : DiscoConfig) (zk : ZkClient)
    (dec : DecodeEnv) {children : List String} (c : String) (m : Members)
    (hroot : znode_exists zk cfg.serverset_znode = true)
    (hch : zk.get_children cfg.serverset_znode = some children)
    (hfail : member_decoded cfg zk dec c = none) :
    (∀ d r, containsChild d children = true →
        alive_record cfg zk dec d = some r →
        lookupMember d (update_members cfg zk dec m) = some r) ∧
    (lookupMember c m = none →
        lookupMember c (update_members cfg zk dec m) = none) := by
  constructor
  · intro d r hd ha
    rw [lookup_update_members cfg zk dec hroot hch]
    simp only [hd, if_true, ha]
  · intro hc
    rw [lookup_update_members cfg zk dec hroot hch]
    by_cases hcc : containsChild c children
    · simp only [hcc, if_true, alive_record_of_decoded_none hfail, hc]
    · simp only [hcc, Bool.false_eq_true, if_false]

theorem child_failure_isolation_witness :
    lookupMember "a" (update_members cfgT zkC decT []) = some memA ∧
    lookupMember "c" (update_members cfgT zkC decT []) = none :=
  ⟨(child_failure_isolation cfgT zkC decT "c" []
      (by decide) rfl (by decide)).1 "a" memA (by decide) (by decide),
   (child_failure_isolation cfgT zkC decT "c" []
      (by decide) rfl (by decide)).2 (by decide)⟩

/-- C7: a listed child whose data fetch fails, whose payload is not valid
UTF-8, or whose payload fails JSON decoding is neither inserted nor removed:
its `update_member` step is a no-op on any map, and its entry after the cycle
is exactly its entry before. -/
theorem failed_fetch_frame (cfg : DiscoConfig) (zk : ZkClient)
    (dec : DecodeEnv) {children : List String} (c : String) (m : Members)
    (hroot : znode_exists zk cfg.serverset_znode = true)
    (hch : zk.get_children cfg.serverset_znode = some children)
    (hlisted : containsChild c children = true)
    (hfail : zk.get_data (cfg.serverset_znode ++ "/" ++ c) = none ∨
      (∃ bytes, zk.get_data (cfg.serverset_znode ++ "/" ++ c) = some bytes ∧
        dec.from_utf8 bytes = none) ∨
      (∃ bytes s, zk.get_data (cfg.serverset_znode ++ "/" ++ c) = some bytes ∧
        dec.from_utf8 bytes = some s ∧ dec.json_decode s = none)) :
    (∀ m' : Members, update_member cfg zk dec c m' = m') ∧
    lookupMember c (update_members cfg zk dec m) = lookupMember c m := by
  have hdec : member_decoded cfg zk dec c = none := by
    unfold member_decoded
    rcases hfail with h | ⟨bytes, hb, hu⟩ | ⟨bytes, s, hb, hu, hj⟩
    · rw [h]
    · rw [hb]
      simp [hu]
    · rw [hb]
      simp [hu, hj]
  constructor
  · intro m'
    rw [update_member_eq, alive_record_of_decoded_none hdec]
  · rw [lookup_update_members cfg zk dec hroot hch]
    simp only [hlisted, if_true, alive_record_of_decoded_none hdec]

theorem failed_fetch_frame_witness :
    update_member cfgT zkC decT "c" [("c", memA)] = [("c", memA)] ∧
    lookupMember "c" (update_members cfgT zkC decT [("c", memA)]) =
      lookupMember "c" [("c", memA)] :=
  ⟨(failed_fetch_frame cfgT zkC decT "c" [("c", memA)] (by decide) rfl
      (by decide) (Or.inr (Or.inl ⟨[2], by decide, by decide⟩))).1 [("c", memA)],
   (failed_fetch_frame cfgT zkC decT "c" [("c", memA)] (by decide) rfl
      (by decide) (Or.inr (Or.inl ⟨[2], by decide, by decide⟩))).2⟩

/-- C8: the closure that `watch` spawns performs exactly one `update_members`
call and then returns — there is no polling loop. On a store that is
unreachable at poll instant 0 but populated from instant 1 on, the spawned
body leaves the snapshot empty, while the cycle a repeating poller would have
run at instant 1 produces member `a`. -/
theorem watch_single_cycle :
    watch_thread cfgT decT zksT [] = [] ∧
    update_members cfgT (zksT 1) decT [] = [("a", memA)] := by
  decide

/-- C9: `Serverset::new` yields no instance when the connection to the
coordination store fails (the source panics there, modelled as `none`), and on
a successful connection it yields the struct whose membership map is empty. -/
theorem serverset_new_connection_contract :
    (∀ (cfg : DiscoConfig) (reason : String),
      Serverset.new cfg (ConnectResult.err reason) = none) ∧
    (∀ (cfg : DiscoConfig) (zk : ZkClient),
      Serverset.new cfg (ConnectResult.ok zk) =
        some { config := cfg, zk_client := zk, members := [] }) :=
  ⟨fun _ _ => rfl, fun _ _ => rfl⟩

/-- C10: every operation on the membership map preserves the invariant that
each stored record's status is `"ALIVE"`, and a freshly constructed Serverset
satisfies it, so a consumer can never observe a record with another status. -/
theorem alive_status_invariant :
    (∀ (cfg : DiscoConfig) (zk : ZkClient) (dec : DecodeEnv) (c : String)
        (m : Members), AliveInv m → AliveInv (update_member cfg zk dec c m)) ∧
    (∀ (c : String) (m : Members), AliveInv m → AliveInv (remove_member c m)) ∧
    (∀ (cfg : DiscoConfig) (zk : ZkClient) (dec : DecodeEnv) (m : Members),
      AliveInv m → AliveInv (update_members cfg zk dec m)) ∧
    (∀ (cfg : DiscoConfig) (zk : ZkClient) (ss : Serverset),
      Serverset.new cfg (ConnectResult.ok zk) = some ss → AliveInv ss.members) := by
  refine ⟨?_, ?_, ?_, ?_⟩
  · intro cfg zk dec c m hm k r hk
    rw [update_member_eq] at hk
    rcases ha : alive_record cfg zk dec c with _ | r'
    · simp only [ha] at hk
      exact hm k r hk
    · simp only [ha] at hk
      by_cases hkc : c = k
      · subst hkc
        rw [lookup_insert_self] at hk
        rw [← Option.some.inj hk]
        exact alive_record_status ha
      · rw [lookup_insert_ne hkc] at hk
        exact hm k r hk
  · intro c m hm k r hk
    unfold remove_member at hk
    by_cases hkc : c = k
    · rw [hkc, lookup_erase_self] at hk
      cases hk
    · rw [lookup_erase_ne hkc] at hk
      exact hm k r hk
  · intro cfg zk dec m hm k r hk
    by_cases hroot : znode_exists zk cfg.serverset_znode
    · rcases hch : zk.get_children cfg.serverset_znode with _ | children
      · rw [update_members_fail_eq cfg zk dec m (Or.inr hch)] at hk
        exact hm k r hk
      · rw [lookup_update_members cfg zk dec hroot hch] at hk
        by_cases hc : containsChild k children
        · simp only [hc, if_true] at hk
          rcases ha : alive_record cfg zk dec k with _ | r'
          · simp only [ha] at hk
            exact hm k r hk
          · simp only [ha] at hk
            rw [← Option.some.inj hk]
            exact alive_record_status ha
        · simp only [hc, Bool.false_eq_true, if_false] at hk
          cases hk
    · have hz : znode_exists zk cfg.serverset_znode = false := by
        simpa using hroot
      rw [update_members_fail_eq cfg zk dec m (Or.inl hz)] at hk
      exact hm k r hk
  · intro cfg zk ss h
    rw [← Option.some.inj h]
    intro k r hk
    simp [lookupMember] at hk

theorem alive_status_invariant_witness :
    AliveInv (update_member cfgT zkAB decT "a" []) :=
  alive_status_invariant.1 cfgT zkAB decT "a" [] (fun _ _ hk => nomatch hk)

end Discotech
